import Mathlib

/- Shallow embedding of the confura virtual filter subsystem
   (src/virtualfilter/filter_system.go: the `FilterSystem` facade and the
   `FilterApi` proxy-filter management) and of the mysql store writer
   (src/store/mysql/store.go), together with proofs of the behavioural
   properties stated in the specification.

   Conventions of the embedding:
   - `rpc.ID` and node URLs are strings; timestamps are natural numbers.
   - External collaborators that are not part of the two source files
     (the upstream full-node client, the proxy stub, the logs api handler,
     normalization/validation helpers) are supplied as an explicit
     environment record `Env` of oracle functions; every call to one of
     them is recorded in a trace of `UpstreamCall` values.
   - Go's `(value, error)` returns become `Except Err value`; a Go `nil`
     slice is the empty list. -/

namespace VirtualFilter

abbrev NodeUrl := String

abbrev FilterId := String

/-- Reserved rpc id `0x0`, never issued (source: `nilRpcId`). -/
def nilRpcId : FilterId := "0x0"

/-- Filter record type tag (source: `FilterTypeBlock`, `FilterTypePendingTxn`, `FilterTypeLog`). -/
inductive FilterType where
  | Block
  | PendingTxn
  | Log
deriving DecidableEq, Repr

/-- A single event log; only the fields inspected by `filterLogs` are kept
(`types.Log`: block number, emitting address, topic list). Addresses and
topics are abstracted to naturals. -/
structure Log where
  blockNumber : Nat
  address : Nat
  topics : List Nat
deriving DecidableEq, Repr

/-- `types.FilterQuery`: block range (int64 block numbers, negative values
are symbolic tags), address list, positional topic sets, optional block hash. -/
structure FilterQuery where
  FromBlock : Option Int
  ToBlock : Option Int
  Addresses : List Nat
  Topics : List (List Nat)
  BlockHash : Option Nat
deriving DecidableEq, Repr

/-- `types.FilterChanges`: changed logs plus block/txn hashes. -/
structure FilterChanges where
  logs : List Log
  hashes : List Nat
deriving DecidableEq, Repr

/-- Modelled from the spec: `util.IncludeEthLogAddrs` is not under `src/`;
per the spec a query's address predicate holds when the log's emitting
address is among the filter's addresses. -/
def includeEthLogAddrs (l : Log) (addrs : List Nat) : Bool :=
  addrs.contains l.address

/-- Modelled from the spec: `util.MatchEthLogTopics` is not under `src/`;
per the spec topics are matched positionally, an empty set at a position
being a wildcard. -/
def matchEthLogTopics (l : Log) (topics : List (List Nat)) : Bool :=
  decide (topics.length ≤ l.topics.length) &&
    (l.topics.zip topics).all fun p => p.2.isEmpty || p.2.contains p.1

/-- First skip condition of the `filterLogs` loop: a non-negative `FromBlock`
strictly above the log's block number. -/
def fromBlockSkips (crit : FilterQuery) (l : Log) : Bool :=
  match crit.FromBlock with
  | none => false
  | some fb => decide (0 ≤ fb) && decide (l.blockNumber < fb.toNat)

/-- Second skip condition: a non-negative `ToBlock` strictly below the log's
block number. -/
def toBlockSkips (crit : FilterQuery) (l : Log) : Bool :=
  match crit.ToBlock with
  | none => false
  | some tb => decide (0 ≤ tb) && decide (tb.toNat < l.blockNumber)

/-- Third skip condition: a non-empty address list that does not include the
log's address. -/
def addrSkips (crit : FilterQuery) (l : Log) : Bool :=
  !crit.Addresses.isEmpty && !includeEthLogAddrs l crit.Addresses

/-- Fourth skip condition: a non-empty topic filter that the log fails. -/
def topicSkips (crit : FilterQuery) (l : Log) : Bool :=
  !crit.Topics.isEmpty && !matchEthLogTopics l crit.Topics

/-- `filterLogs` (filter_system.go): keeps, in order, the logs that pass all
four criteria, mirroring the `continue` chain of the source loop. -/
def filterLogs : List Log → FilterQuery → List Log
  | [], _ => []
  | l :: rest, crit =>
    if fromBlockSkips crit l then filterLogs rest crit
    else if toBlockSkips crit l then filterLogs rest crit
    else if addrSkips crit l then filterLogs rest crit
    else if topicSkips crit l then filterLogs rest crit
    else l :: filterLogs rest crit

/-- The per-log predicate as the claim states it: a log is kept unless a
non-negative `FromBlock` exceeds its block number, a non-negative `ToBlock`
is below it, a non-empty address list excludes its address, or a non-empty
topic set fails to match; a `nil` or negative bound never excludes. -/
def keepLog (crit : FilterQuery) (l : Log) : Bool :=
  (match crit.FromBlock with
   | none => true
   | some fb => decide (fb < 0) || decide (fb.toNat ≤ l.blockNumber)) &&
  ((match crit.ToBlock with
    | none => true
    | some tb => decide (tb < 0) || decide (l.blockNumber ≤ tb.toNat)) &&
   ((crit.Addresses.isEmpty || includeEthLogAddrs l crit.Addresses) &&
    (crit.Topics.isEmpty || matchEthLogTopics l crit.Topics)))

/-- Errors visible to the facade (`errFilterNotFound`,
`rpc.ErrInvalidEthLogFilter`, proxied upstream errors, others). -/
inductive Err where
  | filterNotFound
  | invalidEthLogFilter
  | proxy (e : Err)
  | other (code : Nat)
deriving DecidableEq, Repr

/-- Modelled from the spec: `filterProxyError` is not under `src/`; it
surfaces an upstream error to clients as a proxied error. -/
def filterProxyError (e : Err) : Err := .proxy e

/-- Modelled from the spec: `IsFilterNotFoundError` is not under `src/`; it
recognises the filter-not-found error that triggers cascade removal. -/
def IsFilterNotFoundError : Err → Bool
  | .filterNotFound => true
  | _ => false

/-- Delegate binding of a proxy filter (source: `fnDelegateInfo`). -/
structure FnDelegateInfo where
  fid : FilterId
  nodeUrl : NodeUrl
deriving DecidableEq, Repr

/-- A proxy filter record (source: `Filter`): type tag, delegate binding,
stored log query (log filters only) and last polling time. -/
structure Filter where
  typ : FilterType
  del : FnDelegateInfo
  crit : Option FilterQuery
  lastPollingTime : Nat
deriving DecidableEq, Repr

/-- Modelled from the spec: the `Filter.IsDelegateFullNode` receiver is not
under `src/`; it tests whether the given URL is the record's delegate node. -/
def Filter.IsDelegateFullNode (f : Filter) (nodeUrl : NodeUrl) : Bool :=
  decide (f.del.nodeUrl = nodeUrl)

/-- Sticky-delegate resolution performed by the facade operations: keep the
supplied URL when it is the delegate, otherwise fall back to the delegate's. -/
def stickyUrl (f : Filter) (nodeUrl : NodeUrl) : NodeUrl :=
  if f.IsDelegateFullNode nodeUrl then nodeUrl else f.del.nodeUrl

/-- One recorded interaction with a collaborator outside the two source
files: upstream client resolution, full-node rpc calls, `FilterSystem`
delegate calls, proxy-stub calls and store/handler reads. -/
inductive UpstreamCall where
  | getClient (url : NodeUrl)
  | fnNewLogFilter (url : NodeUrl) (crit : FilterQuery)
  | fnUninstall (url : NodeUrl) (fid : FilterId)
  | fnGetLogs (url : NodeUrl) (fid : FilterId)
  | fnGetChanges (url : NodeUrl) (fid : FilterId)
  | sysNewFilter (url : NodeUrl) (crit : FilterQuery)
  | sysUninstall (fid : FilterId)
  | sysGetLogs (fid : FilterId)
  | sysGetChanges (fid : FilterId)
  | proxyGetChanges (fid : FilterId)
  | storeGetLogs (crit : FilterQuery)
deriving DecidableEq, Repr

/-- The node URL an upstream call addresses, when it addresses one. -/
def UpstreamCall.url? : UpstreamCall → Option NodeUrl
  | .getClient u => some u
  | .fnNewLogFilter u _ => some u
  | .fnUninstall u _ => some u
  | .fnGetLogs u _ => some u
  | .fnGetChanges u _ => some u
  | .sysNewFilter u _ => some u
  | _ => none

/-- Environment of oracle functions standing for the collaborators outside
the two source files: `loadOrGetFnClient` (its failure, if any), the
full-node filter rpc family, the proxy stub (`newFilter`, `uninstallFilter`,
`getFilterChanges`, `getFilterContext`), `GetNetworkId`,
`GetEthHardforkBlockNumber`, `ParseEthLogFilterType`,
`NormalizeEthLogFilter`, `ValidateEthLogFilter` and the log handler's
`GetLogs` (result plus store-hit flag). -/
structure Env where
  clientErr : NodeUrl → Option Err
  fnNewLogFilter : NodeUrl → FilterQuery → Except Err FilterId
  fnUninstall : NodeUrl → FilterId → Except Err Bool
  fnGetLogs : NodeUrl → FilterId → Except Err (List Log)
  fnGetChanges : NodeUrl → FilterId → Except Err FilterChanges
  proxyNewFilter : NodeUrl → FilterQuery → Except Err FilterId
  proxyUninstall : FilterId → Bool
  proxyGetChanges : FilterId → Except Err FilterChanges
  getFilterContext : FilterId → Option FilterQuery
  networkId : Except Err Nat
  hardforkBlockNumber : Nat → Int
  normalizeEthLogFilter : Nat → FilterQuery → Int → Except Err FilterQuery
  validateEthLogFilter : Nat → FilterQuery → Option Err
  parseEthLogFilterType : FilterQuery → Option Nat
  handlerGetLogs : FilterQuery → Except Err (List Log × Bool)

/-- Combined mutable state: the `FilterApi` registry (`filters` map) and,
when the api was built with a `FilterSystem` (`api.sys != nil`), the
system's `filterProxies` key set. -/
structure ApiState where
  filters : List (FilterId × Filter)
  sys : Option (List FilterId)
deriving DecidableEq, Repr

/-- `FilterApi.getFilter`: registry lookup. -/
def getFilter (s : ApiState) (id : FilterId) : Option Filter :=
  (s.filters.find? fun p => decide (p.1 = id)).map (·.2)

/-- `FilterApi.addFilter`: registry insert (map-set semantics). -/
def addFilter (s : ApiState) (id : FilterId) (f : Filter) : ApiState :=
  { s with filters := (id, f) :: s.filters.filter fun p => !decide (p.1 = id) }

/-- `FilterApi.delFilter`: remove and return the record, if present. -/
def delFilter (s : ApiState) (id : FilterId) : ApiState × Option Filter :=
  ({ s with filters := s.filters.filter fun p => !decide (p.1 = id) }, getFilter s id)

/-- `FilterApi.refreshFilterPollingTime`: update `lastPollingTime` to now,
no-op if absent. -/
def refreshFilterPollingTime (s : ApiState) (id : FilterId) (now : Nat) : ApiState :=
  { s with
    filters := s.filters.map fun p =>
      if decide (p.1 = id) then (p.1, { p.2 with lastPollingTime := now }) else p }

/-- `FilterSystem.loadFilterContext`: look the id up among the registered
delegate filters, then fetch the stored query from its proxy stub. -/
def loadFilterContext (env : Env) (ps : List FilterId) (id : FilterId) : Option FilterQuery :=
  if ps.contains id then env.getFilterContext id else none

/-- `FilterSystem.UninstallFilter`: drop the delegate id and cascade to the
proxy stub when it was registered; returns the new key set and the flag. -/
def FilterSystem.UninstallFilter (env : Env) (ps : List FilterId) (id : FilterId) :
    List FilterId × Bool :=
  if ps.contains id then
    (ps.filter fun x => !decide (x = id), env.proxyUninstall id)
  else (ps, false)

/-- Tail of `FilterSystem.GetFilterLogs`: the `lhandler.GetLogs` read
(store or full node), with its trace entry. -/
def getLogsStep (env : Env) (crit : FilterQuery) :
    Except Err (List Log) × List UpstreamCall :=
  match env.handlerGetLogs crit with
  | .ok r => (.ok r.1, [.storeGetLogs crit])
  | .error e => (.error e, [.storeGetLogs crit])

/-- `FilterSystem.GetFilterLogs`: resolve the filter context, classify,
normalize and validate the query, return empty when the whole range is at or
below the hardfork block, otherwise read logs through the handler. -/
def FilterSystem.GetFilterLogs (env : Env) (ps : List FilterId) (id : FilterId) :
    Except Err (List Log) × List UpstreamCall :=
  match loadFilterContext env ps id with
  | none => (.error .filterNotFound, [])
  | some crit =>
    match env.parseEthLogFilterType crit with
    | none => (.error .invalidEthLogFilter, [])
    | some flag =>
      match env.networkId with
      | .error e => (.error e, [])
      | .ok chainId =>
        let hardfork := env.hardforkBlockNumber chainId
        match env.normalizeEthLogFilter flag crit hardfork with
        | .error e => (.error e, [])
        | .ok c =>
          match env.validateEthLogFilter flag c with
          | some e => (.error e, [])
          | none =>
            match c.ToBlock with
            | some tb => if tb ≤ hardfork then (.ok [], []) else getLogsStep env c
            | none => getLogsStep env c

/-- `FilterSystem.GetFilterChanges`: resolve the filter context, drain the
proxy cursor, and re-filter the returned logs against the stored query. -/
def FilterSystem.GetFilterChanges (env : Env) (ps : List FilterId) (id : FilterId) :
    Except Err FilterChanges × List UpstreamCall :=
  match loadFilterContext env ps id with
  | none => (.error .filterNotFound, [])
  | some crit =>
    match env.proxyGetChanges id with
    | .error e => (.error (filterProxyError e), [.proxyGetChanges id])
    | .ok ch => (.ok { ch with logs := filterLogs ch.logs crit }, [.proxyGetChanges id])

/-- Result of a facade operation: the state left behind, the Go
`(value, error)` return, and the trace of collaborator interactions. -/
structure Outcome (α : Type) where
  state : ApiState
  result : Except Err α
  calls : List UpstreamCall

/-- `FilterApi.NewFilter`: resolve the client for the supplied URL, create a
delegate log filter through the `FilterSystem` (or a plain proxy log filter
without one), and register the record — with the source's
`FilterTypePendingTxn` label. `pfid` stands for the fresh `rpc.NewID()`. -/
def FilterApi.NewFilter (env : Env) (s : ApiState) (nodeUrl : NodeUrl)
    (crit : FilterQuery) (pfid : FilterId) (now : Nat) : Outcome FilterId :=
  match env.clientErr nodeUrl with
  | some e => ⟨s, .error (filterProxyError e), [.getClient nodeUrl]⟩
  | none =>
    match s.sys with
    | some ps =>
      match env.proxyNewFilter nodeUrl crit with
      | .error e =>
        ⟨s, .error (filterProxyError e), [.getClient nodeUrl, .sysNewFilter nodeUrl crit]⟩
      | .ok fid =>
        ⟨addFilter { s with sys := some (fid :: ps) } pfid
            { typ := .PendingTxn, del := { fid := fid, nodeUrl := nodeUrl },
              crit := some crit, lastPollingTime := now },
          .ok pfid, [.getClient nodeUrl, .sysNewFilter nodeUrl crit]⟩
    | none =>
      match env.fnNewLogFilter nodeUrl crit with
      | .error e =>
        ⟨s, .error (filterProxyError e), [.getClient nodeUrl, .fnNewLogFilter nodeUrl crit]⟩
      | .ok fid =>
        ⟨addFilter s pfid
            { typ := .PendingTxn, del := { fid := fid, nodeUrl := nodeUrl },
              crit := some crit, lastPollingTime := now },
          .ok pfid, [.getClient nodeUrl, .fnNewLogFilter nodeUrl crit]⟩

/-- `FilterApi.UninstallFilter`: remove the record (absent ids answer
`false` with no upstream interaction), resolve the sticky delegate URL, and
cascade to the `FilterSystem` for log-typed records or to the full node
otherwise. -/
def FilterApi.UninstallFilter (env : Env) (s : ApiState) (nodeUrl : NodeUrl)
    (id : FilterId) : Outcome Bool :=
  match delFilter s id with
  | (s', none) => ⟨s', .ok false, []⟩
  | (s', some f) =>
    let url := stickyUrl f nodeUrl
    match env.clientErr url with
    | some e => ⟨s', .error (filterProxyError e), [.getClient url]⟩
    | none =>
      match s'.sys with
      | some ps =>
        if f.typ = FilterType.Log then
          let r := FilterSystem.UninstallFilter env ps f.del.fid
          ⟨{ s' with sys := some r.1 }, .ok r.2, [.getClient url, .sysUninstall f.del.fid]⟩
        else ⟨s', env.fnUninstall url f.del.fid, [.getClient url, .fnUninstall url f.del.fid]⟩
      | none =>
        ⟨s', env.fnUninstall url f.del.fid, [.getClient url, .fnUninstall url f.del.fid]⟩

/-- Delegate read of `FilterApi.GetFilterLogs`: through the `FilterSystem`
when present, else directly from the full node. -/
def FilterApi.delegateLogs (env : Env) (s : ApiState) (f : Filter) (url : NodeUrl) :
    Except Err (List Log) × List UpstreamCall :=
  match s.sys with
  | some ps =>
    let r := FilterSystem.GetFilterLogs env ps f.del.fid
    (r.1, .sysGetLogs f.del.fid :: r.2)
  | none => (env.fnGetLogs url f.del.fid, [.fnGetLogs url f.del.fid])

/-- `FilterApi.GetFilterLogs`: reject absent or non-log records with
filter-not-found, resolve the sticky delegate URL, read the logs, and drop
the local record when the read signals filter-not-found. -/
def FilterApi.GetFilterLogs (env : Env) (s : ApiState) (nodeUrl : NodeUrl)
    (id : FilterId) : Outcome (List Log) :=
  match getFilter s id with
  | none => ⟨s, .error .filterNotFound, []⟩
  | some f =>
    if f.typ = FilterType.Log then
      let url := stickyUrl f nodeUrl
      match env.clientErr url with
      | some e => ⟨s, .error (filterProxyError e), [.getClient url]⟩
      | none =>
        let r := FilterApi.delegateLogs env s f url
        let s' :=
          match r.1 with
          | .error e => if IsFilterNotFoundError e then (delFilter s id).1 else s
          | .ok _ => s
        ⟨s', r.1, .getClient url :: r.2⟩
    else ⟨s, .error .filterNotFound, []⟩

/-- Delegate read of `FilterApi.GetFilterChanges`: through the
`FilterSystem` for log-typed records when a system is present, else from the
full node. -/
def FilterApi.delegateChanges (env : Env) (s : ApiState) (f : Filter) (url : NodeUrl) :
    Except Err FilterChanges × List UpstreamCall :=
  match s.sys with
  | some ps =>
    if f.typ = FilterType.Log then
      let r := FilterSystem.GetFilterChanges env ps f.del.fid
      (r.1, .sysGetChanges f.del.fid :: r.2)
    else (env.fnGetChanges url f.del.fid, [.fnGetChanges url f.del.fid])
  | none => (env.fnGetChanges url f.del.fid, [.fnGetChanges url f.del.fid])

/-- `FilterApi.GetFilterChanges`: reject absent records, resolve the sticky
delegate URL, refresh the record's polling time, read the changes, and drop
the local record when the read signals filter-not-found. -/
def FilterApi.GetFilterChanges (env : Env) (s : ApiState) (now : Nat)
    (nodeUrl : NodeUrl) (id : FilterId) : Outcome FilterChanges :=
  match getFilter s id with
  | none => ⟨s, .error .filterNotFound, []⟩
  | some f =>
    let url := stickyUrl f nodeUrl
    let s1 := refreshFilterPollingTime s id now
    match env.clientErr url with
    | some e => ⟨s1, .error (filterProxyError e), [.getClient url]⟩
    | none =>
      let r := FilterApi.delegateChanges env s1 f url
      let s2 :=
        match r.1 with
        | .error e => if IsFilterNotFoundError e then (delFilter s1 id).1 else s1
        | .ok _ => s1
      ⟨s2, r.1, .getClient url :: r.2⟩

/-- Body of `FilterApi.expireFilters`: walk the registry, keep the records
whose idle time is under the ttl, drop the others, cascading log-typed ones
to `FilterSystem.UninstallFilter`. -/
def expireStep (env : Env) (now ttl : Nat) :
    List (FilterId × Filter) → Option (List FilterId) →
    List (FilterId × Filter) × Option (List FilterId) × List UpstreamCall
  | [], sys => ([], sys, [])
  | (id, f) :: rest, sys =>
    if now - f.lastPollingTime < ttl then
      let r := expireStep env now ttl rest sys
      ((id, f) :: r.1, r.2.1, r.2.2)
    else if f.typ = FilterType.Log then
      let sys1 := sys.map fun ps => (FilterSystem.UninstallFilter env ps f.del.fid).1
      let r := expireStep env now ttl rest sys1
      (r.1, r.2.1, .sysUninstall f.del.fid :: r.2.2)
    else expireStep env now ttl rest sys

/-- `FilterApi.expireFilters`: one tick of the ttl reaper over the whole
registry. -/
def FilterApi.expireFilters (env : Env) (s : ApiState) (now ttl : Nat) :
    ApiState × List UpstreamCall :=
  let r := expireStep env now ttl s.filters s.sys
  (⟨r.1, r.2.1⟩, r.2.2)

/- Concrete fixtures used by the witnesses and the counterexample
   evaluations. -/

/-- A full node URL. -/
def urlN1 : NodeUrl := "http://node1"

/-- A second full node URL, as selected by a rehashed router. -/
def urlN2 : NodeUrl := "http://node2"

/-- A delegate (upstream) filter id. -/
def fidDel : FilterId := "0xdeadbeef"

/-- A second delegate filter id. -/
def fidDel2 : FilterId := "0xfeedface"

/-- A client-visible proxy filter id. -/
def pfid0 : FilterId := "0xc0ffee"

/-- A second client-visible proxy filter id. -/
def pfid1 : FilterId := "0xc0c0a0"

/-- A log query restricted to address 1. -/
def critB : FilterQuery :=
  { FromBlock := none, ToBlock := none, Addresses := [1], Topics := [], BlockHash := none }

/-- A log emitted by address 2, hence outside `critB`. -/
def logB : Log := { blockNumber := 150, address := 2, topics := [] }

/-- A benign environment: every collaborator call succeeds. -/
def envB : Env where
  clientErr := fun _ => none
  fnNewLogFilter := fun _ _ => .ok fidDel
  fnUninstall := fun _ _ => .ok true
  fnGetLogs := fun _ _ => .ok [logB]
  fnGetChanges := fun _ _ => .ok { logs := [logB], hashes := [] }
  proxyNewFilter := fun _ _ => .ok fidDel
  proxyUninstall := fun _ => true
  proxyGetChanges := fun _ => .ok { logs := [logB], hashes := [] }
  getFilterContext := fun _ => some critB
  networkId := .ok 1
  hardforkBlockNumber := fun _ => -1
  normalizeEthLogFilter := fun _ c _ => .ok c
  validateEthLogFilter := fun _ _ => none
  parseEthLogFilterType := fun _ => some 0
  handlerGetLogs := fun _ => .ok ([logB], true)

/-- The empty registry backed by an empty `FilterSystem`. -/
def sB : ApiState := { filters := [], sys := some [] }

/-- A correctly log-typed record bound to `fidDel` on `urlN1` — what the
spec says `NewFilter` should register. -/
def fLogTyped : Filter :=
  { typ := .Log, del := { fid := fidDel, nodeUrl := urlN1 },
    crit := some critB, lastPollingTime := 0 }

/-- A registry holding `fLogTyped` under `pfid0`, with its delegate
registered in the system. -/
def sLogTyped : ApiState := { filters := [(pfid0, fLogTyped)], sys := some [fidDel] }

/-- A query whose whole range sits at or below a hardfork block of 10. -/
def crit5 : FilterQuery :=
  { FromBlock := none, ToBlock := some 5, Addresses := [], Topics := [], BlockHash := none }

/-- Same as `envB` but with hardfork block 10 and `crit5` as the stored
filter context. -/
def env5 : Env :=
  { envB with getFilterContext := fun _ => some crit5, hardforkBlockNumber := fun _ => 10 }

/-- Environment whose upstream reads answer filter-not-found. -/
def env8 : Env :=
  { envB with
    fnGetLogs := fun _ _ => .error .filterNotFound
    fnGetChanges := fun _ _ => .error .filterNotFound
    getFilterContext := fun _ => none }

/-- A registry holding `fLogTyped` without a backing `FilterSystem`. -/
def s8 : ApiState := { filters := [(pfid0, fLogTyped)], sys := none }

/-- An expired log-typed record (idle since time 0). -/
def f7a : Filter :=
  { typ := .Log, del := { fid := fidDel, nodeUrl := urlN1 },
    crit := some critB, lastPollingTime := 0 }

/-- A fresh block-typed record (polled at time 90). -/
def f7b : Filter :=
  { typ := .Block, del := { fid := fidDel2, nodeUrl := urlN1 },
    crit := none, lastPollingTime := 90 }

/-- Registry with one expired log filter and one fresh block filter. -/
def s7 : ApiState := { filters := [(pfid0, f7a), (pfid1, f7b)], sys := some [fidDel] }

end VirtualFilter

namespace MysqlStore

/- Shallow embedding of the epoch-batch writer of src/store/mysql/store.go.
   RLP payloads, gorm rows and hashes are abstracted: a transaction is its
   hash, a receipt is its log list, a log is an opaque payload. -/

/-- A transaction, identified by its hash (`types.Transaction`). -/
structure Transaction where
  hash : Nat
deriving DecidableEq, Repr

/-- A transaction receipt with its event logs (`types.TransactionReceipt`). -/
structure Receipt where
  logs : List Nat
deriving DecidableEq, Repr

/-- A block: its transaction list (`types.Block`). -/
structure Block where
  transactions : List Transaction
deriving DecidableEq, Repr

/-- `store.EpochData`: the blocks of one epoch plus the receipt map keyed by
transaction hash. -/
structure EpochData where
  blocks : List Block
  receipts : List (Nat × Receipt)
deriving DecidableEq, Repr

/-- One row created inside the db transaction: a block row with its pivot
flag, a transaction row with its receipt, or an event-log row. -/
inductive DbWrite where
  | block (b : Block) (pivot : Bool)
  | tx (t : Transaction) (r : Receipt)
  | log (l : Nat)
deriving DecidableEq, Repr

/-- `data.Receipts[tx.Hash]`: receipt lookup by transaction hash. -/
def lookupReceipt (receipts : List (Nat × Receipt)) (h : Nat) : Option Receipt :=
  (receipts.find? fun p => decide (p.1 = h)).map (·.2)

/-- Inner loop of `putOneWithTx`: write each transaction whose receipt is
known, followed by the receipt's event logs; unexecuted transactions are
skipped. -/
def txWrites (receipts : List (Nat × Receipt)) : List Transaction → List DbWrite
  | [] => []
  | t :: rest =>
    match lookupReceipt receipts t.hash with
    | none => txWrites receipts rest
    | some r => (DbWrite.tx t r :: r.logs.map DbWrite.log) ++ txWrites receipts rest

/-- Outer loop of `putOneWithTx`: write each block with
`pivot = (i == pivotIndex)`, then its transactions. -/
def putBlocksWithTx (receipts : List (Nat × Receipt)) (pivotIndex : Nat) :
    Nat → List Block → List DbWrite
  | _, [] => []
  | i, b :: rest =>
    (DbWrite.block b (decide (i = pivotIndex)) :: txWrites receipts b.transactions)
      ++ putBlocksWithTx receipts pivotIndex (i + 1) rest

/-- `mysqlStore.putOneWithTx`: the rows created for one epoch batch, with
`pivotIndex = len(data.Blocks) - 1`. -/
def putOneWithTx (data : EpochData) : List DbWrite :=
  putBlocksWithTx data.receipts (data.blocks.length - 1) 0 data.blocks

/-- `mysqlStore.PutEpochDataSlice`: all batches written inside one db
transaction, in order. -/
def PutEpochDataSlice (dataSlice : List EpochData) : List DbWrite :=
  (dataSlice.map putOneWithTx).flatten

/-- `mysqlStore.PutEpochData`: a single batch delegated to
`PutEpochDataSlice`. -/
def PutEpochData (data : EpochData) : List DbWrite :=
  PutEpochDataSlice [data]

end MysqlStore

namespace VirtualFilter

/-- The claim-side keep predicate is the negation of the source loop's skip
chain. -/
theorem keepLog_eq_skips (crit : FilterQuery) (l : Log) :
    keepLog crit l =
      (!fromBlockSkips crit l && (!toBlockSkips crit l &&
        (!addrSkips crit l && !topicSkips crit l))) := by
  have e1 : ∀ v : Int, decide (v < 0) = !decide (0 ≤ v) := by
    intro v; rw [← decide_not, decide_eq_decide]; omega
  have e2 : ∀ (v : Int) (n : Nat), decide (v.toNat ≤ n) = !decide (n < v.toNat) := by
    intro v n; rw [← decide_not, decide_eq_decide]; omega
  have e3 : ∀ (v : Int) (n : Nat), decide (n ≤ v.toNat) = !decide (v.toNat < n) := by
    intro v n; rw [← decide_not, decide_eq_decide]; omega
  unfold keepLog fromBlockSkips toBlockSkips addrSkips topicSkips
  cases crit.FromBlock <;> cases crit.ToBlock <;>
    simp only [e1, e2, e3, Bool.not_and, Bool.not_not, Bool.not_false, Bool.true_and]

/-- Claim C10: `filterLogs` keeps a log unless a non-negative `FromBlock`
exceeds the log's block number, a non-negative `ToBlock` is below it, a
non-empty address list excludes its address, or a non-empty topic set fails
to match; a `nil` or negative block bound never excludes, and the output is
a sublist of the input, preserving its order. -/
theorem filterLogs_keep_spec (logs : List Log) (crit : FilterQuery) :
    filterLogs logs crit = logs.filter (keepLog crit)
      ∧ (filterLogs logs crit).Sublist logs := by
  have h : filterLogs logs crit = logs.filter (keepLog crit) := by
    induction logs with
    | nil => rfl
    | cons l rest ih =>
      simp only [filterLogs, List.filter_cons, keepLog_eq_skips]
      cases h1 : fromBlockSkips crit l <;> cases h2 : toBlockSkips crit l <;>
        cases h3 : addrSkips crit l <;> cases h4 : topicSkips crit l <;>
          simp [ih]
  exact ⟨h, h ▸ List.filter_sublist logs⟩

/-- Sticky-delegate resolution always lands on the record's delegate URL. -/
theorem stickyUrl_eq (f : Filter) (u : NodeUrl) : stickyUrl f u = f.del.nodeUrl := by
  unfold stickyUrl Filter.IsDelegateFullNode
  by_cases h : f.del.nodeUrl = u <;> simp [h]

/-- With the record present, `UninstallFilter` ignores the supplied URL. -/
theorem uninstall_url_irrel (env : Env) (s : ApiState) (id : FilterId) (f : Filter)
    (u : NodeUrl) (hf : getFilter s id = some f) :
    FilterApi.UninstallFilter env s u id = FilterApi.UninstallFilter env s f.del.nodeUrl id := by
  unfold FilterApi.UninstallFilter delFilter
  rw [hf]
  simp only [stickyUrl_eq]

/-- With the record present, `GetFilterLogs` ignores the supplied URL. -/
theorem getLogs_url_irrel (env : Env) (s : ApiState) (id : FilterId) (f : Filter)
    (u : NodeUrl) (hf : getFilter s id = some f) :
    FilterApi.GetFilterLogs env s u id = FilterApi.GetFilterLogs env s f.del.nodeUrl id := by
  unfold FilterApi.GetFilterLogs FilterApi.delegateLogs
  rw [hf]
  simp only [stickyUrl_eq]

/-- With the record present, `GetFilterChanges` ignores the supplied URL. -/
theorem getChanges_url_irrel (env : Env) (s : ApiState) (now : Nat) (id : FilterId)
    (f : Filter) (u : NodeUrl) (hf : getFilter s id = some f) :
    FilterApi.GetFilterChanges env s now u id
      = FilterApi.GetFilterChanges env s now f.del.nodeUrl id := by
  unfold FilterApi.GetFilterChanges FilterApi.delegateChanges
  rw [hf]
  simp only [stickyUrl_eq]

/-- The `FilterSystem.GetFilterLogs` trace addresses no node URL. -/
theorem sysGetLogs_trace_no_url (env : Env) (ps : List FilterId) (id : FilterId) :
    ∀ c ∈ (FilterSystem.GetFilterLogs env ps id).2, c.url? = none := by
  intro c hc
  unfold FilterSystem.GetFilterLogs getLogsStep at hc
  cases h1 : loadFilterContext env ps id <;> simp [h1] at hc
  case some crit =>
  cases h2 : env.parseEthLogFilterType crit <;> simp [h2] at hc
  case some flag =>
  cases h3 : env.networkId <;> simp [h3] at hc
  case ok chainId =>
  cases h4 : env.normalizeEthLogFilter flag crit (env.hardforkBlockNumber chainId) <;>
    simp [h4] at hc
  case ok c2 =>
  cases h5 : env.validateEthLogFilter flag c2 <;> simp [h5] at hc
  case none =>
  cases h6 : c2.ToBlock with
  | some tb =>
    by_cases h7 : tb ≤ env.hardforkBlockNumber chainId
    · simp [h6, h7] at hc
    · cases h8 : env.handlerGetLogs c2 <;> simp [h6, h7, h8] at hc <;>
        simp [hc, UpstreamCall.url?]
  | none =>
    cases h8 : env.handlerGetLogs c2 <;> simp [h6, h8] at hc <;>
      simp [hc, UpstreamCall.url?]

/-- The `FilterSystem.GetFilterChanges` trace addresses no node URL. -/
theorem sysGetChanges_trace_no_url (env : Env) (ps : List FilterId) (id : FilterId) :
    ∀ c ∈ (FilterSystem.GetFilterChanges env ps id).2, c.url? = none := by
  intro c hc
  unfold FilterSystem.GetFilterChanges at hc
  cases h1 : loadFilterContext env ps id <;> simp [h1] at hc
  case some crit =>
  cases h2 : env.proxyGetChanges id <;> simp [h2] at hc <;> simp [hc, UpstreamCall.url?]

/-- With the record present, every addressed call of `UninstallFilter` goes
to the record's delegate node. -/
theorem uninstall_calls_delegate (env : Env) (s : ApiState) (id : FilterId) (f : Filter)
    (u : NodeUrl) (hf : getFilter s id = some f) :
    ∀ c ∈ (FilterApi.UninstallFilter env s u id).calls,
      ∀ v, c.url? = some v → v = f.del.nodeUrl := by
  intro c hc v hv
  unfold FilterApi.UninstallFilter delFilter at hc
  rw [hf] at hc
  simp only [stickyUrl_eq] at hc
  cases hcl : env.clientErr f.del.nodeUrl <;> simp [hcl] at hc
  · cases hsys : s.sys <;> simp [hsys] at hc
    · rcases hc with rfl | rfl <;> simp_all [UpstreamCall.url?]
    · by_cases hty : f.typ = FilterType.Log <;> simp [hty] at hc <;>
        rcases hc with rfl | rfl <;> simp_all [UpstreamCall.url?]
  · rcases hc with rfl
    simp_all [UpstreamCall.url?]

/-- With the record present, every addressed call of `GetFilterLogs` goes to
the record's delegate node. -/
theorem getLogs_calls_delegate (env : Env) (s : ApiState) (id : FilterId) (f : Filter)
    (u : NodeUrl) (hf : getFilter s id = some f) :
    ∀ c ∈ (FilterApi.GetFilterLogs env s u id).calls,
      ∀ v, c.url? = some v → v = f.del.nodeUrl := by
  intro c hc v hv
  unfold FilterApi.GetFilterLogs FilterApi.delegateLogs at hc
  rw [hf] at hc
  simp only [stickyUrl_eq] at hc
  by_cases hty : f.typ = FilterType.Log <;> simp [hty] at hc
  cases hcl : env.clientErr f.del.nodeUrl <;> simp [hcl] at hc
  · cases hsys : s.sys <;> simp [hsys] at hc
    · rcases hc with rfl | rfl <;> simp_all [UpstreamCall.url?]
    · rcases hc with rfl | rfl | h2
      · simp_all [UpstreamCall.url?]
      · simp_all [UpstreamCall.url?]
      · have := sysGetLogs_trace_no_url env _ f.del.fid c h2
        simp_all
  · rcases hc with rfl
    simp_all [UpstreamCall.url?]

/-- With the record present, every addressed call of `GetFilterChanges` goes
to the record's delegate node. -/
theorem getChanges_calls_delegate (env : Env) (s : ApiState) (now : Nat) (id : FilterId)
    (f : Filter) (u : NodeUrl) (hf : getFilter s id = some f) :
    ∀ c ∈ (FilterApi.GetFilterChanges env s now u id).calls,
      ∀ v, c.url? = some v → v = f.del.nodeUrl := by
  intro c hc v hv
  unfold FilterApi.GetFilterChanges FilterApi.delegateChanges at hc
  rw [hf] at hc
  simp only [stickyUrl_eq] at hc
  cases hcl : env.clientErr f.del.nodeUrl <;> simp [hcl] at hc
  · cases hsys : (refreshFilterPollingTime s id now).sys <;> simp [hsys] at hc
    · rcases hc with rfl | rfl <;> simp_all [UpstreamCall.url?]
    · by_cases hty : f.typ = FilterType.Log <;> simp [hty] at hc
      · rcases hc with rfl | rfl | h2
        · simp_all [UpstreamCall.url?]
        · simp_all [UpstreamCall.url?]
        · have := sysGetChanges_trace_no_url env _ f.del.fid c h2
          simp_all
      · rcases hc with rfl | rfl <;> simp_all [UpstreamCall.url?]
  · rcases hc with rfl
    simp_all [UpstreamCall.url?]

/-- Claim C1 (sticky delegate): for every installed filter record and each
of `UninstallFilter`, `GetFilterLogs`, `GetFilterChanges`, the outcome with
any caller-supplied node URL equals the outcome with the record's delegate
node URL — so an operation that succeeds on the delegate node still
succeeds, unchanged, under a rerouted URL — and every node-addressed
upstream interaction targets the delegate node URL, never the supplied one. -/
theorem sticky_delegate_c1 (env : Env) (s : ApiState) (now : Nat) (url : NodeUrl)
    (id : FilterId) (f : Filter) (hf : getFilter s id = some f) :
    (FilterApi.UninstallFilter env s url id
        = FilterApi.UninstallFilter env s f.del.nodeUrl id
      ∧ ∀ c ∈ (FilterApi.UninstallFilter env s url id).calls,
          ∀ v, c.url? = some v → v = f.del.nodeUrl)
  ∧ (FilterApi.GetFilterLogs env s url id
        = FilterApi.GetFilterLogs env s f.del.nodeUrl id
      ∧ ∀ c ∈ (FilterApi.GetFilterLogs env s url id).calls,
          ∀ v, c.url? = some v → v = f.del.nodeUrl)
  ∧ (FilterApi.GetFilterChanges env s now url id
        = FilterApi.GetFilterChanges env s now f.del.nodeUrl id
      ∧ ∀ c ∈ (FilterApi.GetFilterChanges env s now url id).calls,
          ∀ v, c.url? = some v → v = f.del.nodeUrl) :=
  ⟨⟨uninstall_url_irrel env s id f url hf, uninstall_calls_delegate env s id f url hf⟩,
   ⟨getLogs_url_irrel env s id f url hf, getLogs_calls_delegate env s id f url hf⟩,
   ⟨getChanges_url_irrel env s now id f url hf,
    getChanges_calls_delegate env s now id f url hf⟩⟩

/-- Witness for C1: a rerouted uninstall on a concrete installed record
coincides with the one addressed to the delegate node. -/
theorem sticky_delegate_c1_witness :
    FilterApi.UninstallFilter envB sLogTyped urlN2 pfid0
      = FilterApi.UninstallFilter envB sLogTyped urlN1 pfid0 :=
  (sticky_delegate_c1 envB sLogTyped 0 urlN2 pfid0 fLogTyped rfl).1.1

/-- Removing a key from the registry list leaves no entry for it. -/
theorem find?_filter_out (l : List (FilterId × Filter)) (id : FilterId) :
    ((l.filter fun p => !decide (p.1 = id)).find? fun p => decide (p.1 = id)) = none := by
  rw [List.find?_eq_none]
  intro p hp
  have h2 := (List.mem_filter.mp hp).2
  simp at h2 ⊢
  exact h2

/-- `delFilter` leaves no record under the removed id. -/
theorem getFilter_delFilter (s : ApiState) (id : FilterId) :
    getFilter (delFilter s id).1 id = none := by
  unfold getFilter delFilter
  simp [find?_filter_out]

/-- Whatever branch `UninstallFilter` takes, the resulting registry is the
original minus the removed id. -/
theorem uninstall_state_filters (env : Env) (s : ApiState) (u : NodeUrl) (id : FilterId) :
    (FilterApi.UninstallFilter env s u id).state.filters
      = s.filters.filter fun p => !decide (p.1 = id) := by
  unfold FilterApi.UninstallFilter delFilter
  cases hg : getFilter s id <;> simp [hg]
  case some f =>
  cases hcl : env.clientErr (stickyUrl f u) <;> simp [hcl]
  cases hsys : s.sys <;> simp [hsys]
  by_cases hty : f.typ = FilterType.Log <;> simp [hty]

/-- On an absent id, `UninstallFilter` answers `false`, mutates nothing and
contacts nothing. -/
theorem uninstall_absent (env : Env) (s : ApiState) (u : NodeUrl) (id : FilterId)
    (h : getFilter s id = none) :
    FilterApi.UninstallFilter env s u id = ⟨s, .ok false, []⟩ := by
  have hfind : s.filters.find? (fun p => decide (p.1 = id)) = none := by
    unfold getFilter at h
    exact Option.map_eq_none'.mp h
  have hfe : s.filters.filter (fun p => !decide (p.1 = id)) = s.filters := by
    apply List.filter_eq_self.mpr
    intro p hp
    have h2 := List.find?_eq_none.mp hfind p hp
    simpa using h2
  unfold FilterApi.UninstallFilter delFilter
  rw [h, hfe]

/-- Claim C6 (idempotent uninstall): an absent id answers `false` with no
upstream contact and no state change; the call directly following any
uninstall of `id` answers `false` and performs no upstream call; the first
call on an installed record answers `true` when the delegate uninstall does,
both through the `FilterSystem` (log-typed records) and through the full
node (other records or no system). -/
theorem uninstallFilter_idempotent_c6 (env : Env) (s : ApiState) (url1 url2 : NodeUrl)
    (id : FilterId) :
    (getFilter s id = none →
      FilterApi.UninstallFilter env s url1 id = ⟨s, .ok false, []⟩)
  ∧ ((FilterApi.UninstallFilter env
        (FilterApi.UninstallFilter env s url1 id).state url2 id).result = .ok false
      ∧ (FilterApi.UninstallFilter env
          (FilterApi.UninstallFilter env s url1 id).state url2 id).calls = [])
  ∧ (∀ f ps, getFilter s id = some f → s.sys = some ps → f.typ = FilterType.Log →
      env.clientErr f.del.nodeUrl = none → ps.contains f.del.fid = true →
      env.proxyUninstall f.del.fid = true →
      (FilterApi.UninstallFilter env s url1 id).result = .ok true)
  ∧ (∀ f, getFilter s id = some f → (s.sys = none ∨ f.typ ≠ FilterType.Log) →
      env.clientErr f.del.nodeUrl = none →
      env.fnUninstall f.del.nodeUrl f.del.fid = .ok true →
      (FilterApi.UninstallFilter env s url1 id).result = .ok true) := by
  refine ⟨fun h => uninstall_absent env s url1 id h, ?_, ?_, ?_⟩
  · have habs : getFilter (FilterApi.UninstallFilter env s url1 id).state id = none := by
      unfold getFilter
      rw [uninstall_state_filters]
      simp [find?_filter_out]
    rw [uninstall_absent env _ url2 id habs]
    exact ⟨rfl, rfl⟩
  · intro f ps hf hsys hty hcl hcont hpx
    have hmem : f.del.fid ∈ ps := by simpa using hcont
    unfold FilterApi.UninstallFilter delFilter
    rw [hf]
    simp [stickyUrl_eq, hcl, hsys, hty, FilterSystem.UninstallFilter, hmem, hpx]
  · intro f hf hcase hcl hfn
    unfold FilterApi.UninstallFilter delFilter
    rw [hf]
    rcases hcase with hsys | hty
    · simp [stickyUrl_eq, hcl, hsys, hfn]
    · cases hsys : s.sys <;> simp [stickyUrl_eq, hcl, hsys, hty, hfn]

/-- Witness for C6: on a concrete installed log filter the first uninstall
answers `true` and the immediately following one answers `false`. -/
theorem uninstallFilter_idempotent_c6_witness :
    (FilterApi.UninstallFilter envB
        (FilterApi.UninstallFilter envB sLogTyped urlN2 pfid0).state urlN2 pfid0).result
      = .ok false
    ∧ (FilterApi.UninstallFilter envB sLogTyped urlN2 pfid0).result = .ok true := by
  have h := uninstallFilter_idempotent_c6 envB sLogTyped urlN2 urlN2 pfid0
  exact ⟨h.2.1.1, h.2.2.1 fLogTyped [fidDel] rfl rfl rfl rfl rfl rfl⟩

/-- Claim C2 evaluated on the code: the record registered by the facade's
`NewFilter` (the log-filter path) carries the `FilterTypePendingTxn` label,
not `FilterTypeLog`. -/
theorem newFilter_mislabel_c2 :
    (getFilter (FilterApi.NewFilter envB sB urlN1 critB pfid0 0).state pfid0).map Filter.typ
      = some FilterType.PendingTxn
    ∧ FilterType.PendingTxn ≠ FilterType.Log := ⟨rfl, by decide⟩

/-- Claim C3 evaluated on the code: `GetFilterLogs` on a filter freshly
installed through `NewFilter` fails with filter-not-found (no upstream
interaction at all), although the identical record relabeled `FilterTypeLog`
is served successfully under the same environment. -/
theorem getFilterLogs_newFilter_notFound_c3 :
    (FilterApi.GetFilterLogs envB (FilterApi.NewFilter envB sB urlN1 critB pfid0 0).state
        urlN1 pfid0).result = .error .filterNotFound
    ∧ (FilterApi.GetFilterLogs envB (FilterApi.NewFilter envB sB urlN1 critB pfid0 0).state
        urlN1 pfid0).calls = []
    ∧ (FilterApi.GetFilterLogs envB sLogTyped urlN1 pfid0).result = .ok [logB] :=
  ⟨rfl, rfl, rfl⟩

/-- Claim C4 evaluated on the code: `GetFilterChanges` on a filter freshly
installed through `NewFilter` takes the full-node fallback (its trace shows
`fnGetChanges`, not `sysGetChanges`) and returns the upstream logs without
re-filtering: it returns `logB` although `logB` fails the stored query. -/
theorem getFilterChanges_newFilter_bypass_c4 :
    (FilterApi.GetFilterChanges envB (FilterApi.NewFilter envB sB urlN1 critB pfid0 0).state
        1 urlN1 pfid0).result = .ok { logs := [logB], hashes := [] }
    ∧ filterLogs [logB] critB = []
    ∧ (FilterApi.GetFilterChanges envB (FilterApi.NewFilter envB sB urlN1 critB pfid0 0).state
        1 urlN1 pfid0).calls = [.getClient urlN1, .fnGetChanges urlN1 fidDel] :=
  ⟨rfl, rfl, rfl⟩

/-- Claim C5 (hardfork clamp): when the stored query of an installed
delegate filter normalizes to one whose `ToBlock` is at or below the chain's
hardfork block number, `FilterSystem.GetFilterLogs` answers the empty log
list and performs no log retrieval at all (empty trace). -/
theorem getFilterLogs_hardfork_clamp_c5 (env : Env) (ps : List FilterId) (id : FilterId)
    (crit : FilterQuery) (flag chainId : Nat) (crit2 : FilterQuery) (tb : Int)
    (hctx : loadFilterContext env ps id = some crit)
    (hflag : env.parseEthLogFilterType crit = some flag)
    (hnet : env.networkId = .ok chainId)
    (hnorm : env.normalizeEthLogFilter flag crit (env.hardforkBlockNumber chainId) = .ok crit2)
    (hval : env.validateEthLogFilter flag crit2 = none)
    (htb : crit2.ToBlock = some tb)
    (hle : tb ≤ env.hardforkBlockNumber chainId) :
    FilterSystem.GetFilterLogs env ps id = (.ok [], []) := by
  unfold FilterSystem.GetFilterLogs
  rw [hctx]
  simp [hflag, hnet, hnorm, hval, htb, hle]

/-- Witness for C5: a concrete query ending at block 5 against hardfork
block 10 yields the empty answer with an empty trace. -/
theorem getFilterLogs_hardfork_clamp_c5_witness :
    FilterSystem.GetFilterLogs env5 [fidDel] fidDel = (.ok [], []) :=
  getFilterLogs_hardfork_clamp_c5 env5 [fidDel] fidDel crit5 0 1 crit5 5
    rfl rfl rfl rfl rfl rfl (by decide)

/-- On an absent id, `GetFilterLogs` fails locally with filter-not-found and
contacts nothing. -/
theorem getLogs_absent (env : Env) (s : ApiState) (u : NodeUrl) (id : FilterId)
    (h : getFilter s id = none) :
    FilterApi.GetFilterLogs env s u id = ⟨s, .error .filterNotFound, []⟩ := by
  unfold FilterApi.GetFilterLogs
  rw [h]

/-- On an absent id, `GetFilterChanges` fails locally with filter-not-found
and contacts nothing. -/
theorem getChanges_absent (env : Env) (s : ApiState) (now : Nat) (u : NodeUrl)
    (id : FilterId) (h : getFilter s id = none) :
    FilterApi.GetFilterChanges env s now u id = ⟨s, .error .filterNotFound, []⟩ := by
  unfold FilterApi.GetFilterChanges
  rw [h]

/-- Claim C8 (eager removal on upstream filter-not-found): when the delegate
read performed by `GetFilterLogs` or `GetFilterChanges` for an installed
filter answers a filter-not-found error, the facade removes the local record
before returning that error, and the directly following call on the same id
fails with filter-not-found out of the local registry, contacting nothing. -/
theorem filterNotFound_eager_removal_c8 (env : Env) (s : ApiState) (now now2 : Nat)
    (url url2 : NodeUrl) (id : FilterId) (f : Filter) (e : Err)
    (hf : getFilter s id = some f) :
    (f.typ = FilterType.Log →
      env.clientErr f.del.nodeUrl = none →
      (FilterApi.delegateLogs env s f f.del.nodeUrl).1 = .error e →
      IsFilterNotFoundError e = true →
        (FilterApi.GetFilterLogs env s url id).result = .error e
        ∧ getFilter (FilterApi.GetFilterLogs env s url id).state id = none
        ∧ FilterApi.GetFilterLogs env (FilterApi.GetFilterLogs env s url id).state url2 id
            = ⟨(FilterApi.GetFilterLogs env s url id).state, .error .filterNotFound, []⟩)
  ∧ (env.clientErr f.del.nodeUrl = none →
      (FilterApi.delegateChanges env s f f.del.nodeUrl).1 = .error e →
      IsFilterNotFoundError e = true →
        (FilterApi.GetFilterChanges env s now url id).result = .error e
        ∧ getFilter (FilterApi.GetFilterChanges env s now url id).state id = none
        ∧ FilterApi.GetFilterChanges env (FilterApi.GetFilterChanges env s now url id).state
              now2 url2 id
            = ⟨(FilterApi.GetFilterChanges env s now url id).state,
                .error .filterNotFound, []⟩) := by
  constructor
  · intro hty hcl hdel he
    have hstate : (FilterApi.GetFilterLogs env s url id).state = (delFilter s id).1 := by
      unfold FilterApi.GetFilterLogs
      rw [hf]
      simp [hty, stickyUrl_eq, hcl, hdel, he]
    have hres : (FilterApi.GetFilterLogs env s url id).result = .error e := by
      unfold FilterApi.GetFilterLogs
      rw [hf]
      simp [hty, stickyUrl_eq, hcl, hdel, he]
    refine ⟨hres, ?_, ?_⟩
    · rw [hstate]
      exact getFilter_delFilter s id
    · rw [hstate]
      exact getLogs_absent env _ url2 id (getFilter_delFilter s id)
  · intro hcl hdel he
    have hdel' : (FilterApi.delegateChanges env (refreshFilterPollingTime s id now) f
        f.del.nodeUrl).1 = .error e := hdel
    have hstate : (FilterApi.GetFilterChanges env s now url id).state
        = (delFilter (refreshFilterPollingTime s id now) id).1 := by
      unfold FilterApi.GetFilterChanges
      rw [hf]
      simp [stickyUrl_eq, hcl, hdel', he]
    have hres : (FilterApi.GetFilterChanges env s now url id).result = .error e := by
      unfold FilterApi.GetFilterChanges
      rw [hf]
      simp [stickyUrl_eq, hcl, hdel', he]
    refine ⟨hres, ?_, ?_⟩
    · rw [hstate]
      exact getFilter_delFilter _ id
    · rw [hstate]
      exact getChanges_absent env _ now2 url2 id (getFilter_delFilter _ id)

/-- Witness for C8: a concrete installed log filter whose full-node read
answers filter-not-found is gone from the registry afterwards. -/
theorem filterNotFound_eager_removal_c8_witness :
    getFilter (FilterApi.GetFilterLogs env8 s8 urlN2 pfid0).state pfid0 = none := by
  have h := filterNotFound_eager_removal_c8 env8 s8 3 4 urlN2 urlN2 pfid0 fLogTyped
    Err.filterNotFound rfl
  exact (h.1 rfl rfl rfl rfl).2.1

/-- The registry kept by one reaper walk is exactly the non-idle part. -/
theorem expireStep_keep (env : Env) (now ttl : Nat) :
    ∀ (l : List (FilterId × Filter)) (sys : Option (List FilterId)),
      (expireStep env now ttl l sys).1
        = l.filter fun p => decide (now - p.2.lastPollingTime < ttl) := by
  intro l
  induction l with
  | nil => intro sys; rfl
  | cons p rest ih =>
    intro sys
    obtain ⟨id, f⟩ := p
    unfold expireStep
    by_cases h : now - f.lastPollingTime < ttl <;> simp [h, ih]
    by_cases h2 : f.typ = FilterType.Log <;> simp [h2, ih]

/-- The cascade trace of one reaper walk: one `sysUninstall` per expired
log-typed record, in registry order. -/
theorem expireStep_calls (env : Env) (now ttl : Nat) :
    ∀ (l : List (FilterId × Filter)) (sys : Option (List FilterId)),
      (expireStep env now ttl l sys).2.2
        = (l.filter fun p => decide (ttl ≤ now - p.2.lastPollingTime)
            && decide (p.2.typ = FilterType.Log)).map
            fun p => UpstreamCall.sysUninstall p.2.del.fid := by
  intro l
  induction l with
  | nil => intro sys; rfl
  | cons p rest ih =>
    intro sys
    obtain ⟨id, f⟩ := p
    unfold expireStep
    by_cases h : now - f.lastPollingTime < ttl
    · simp [h, ih, Nat.not_le.mpr h]
    · by_cases h2 : f.typ = FilterType.Log <;>
        simp [h, h2, ih, Nat.not_lt.mp h]

/-- `find?` by key after a `filter`, given unique keys: the surviving hit is
the original one exactly when it passes the filter. -/
theorem find?_filter_key (id : FilterId) (f : Filter) (q : FilterId × Filter → Bool) :
    ∀ l : List (FilterId × Filter), (l.map Prod.fst).Nodup →
      l.find? (fun p => decide (p.1 = id)) = some (id, f) →
      (l.filter q).find? (fun p => decide (p.1 = id))
        = if q (id, f) then some (id, f) else none := by
  intro l
  induction l with
  | nil => intro _ h; simp at h
  | cons a rest ih =>
    intro hnd hf
    by_cases ha : a.1 = id
    · have hfa : a = (id, f) := by
        rw [List.find?_cons_of_pos _ (by simpa using ha)] at hf
        exact Option.some_injective _ hf
      have hid : ∀ p ∈ rest, ¬(p.1 = id) := by
        intro p hp hpid
        have : a.1 ∈ rest.map Prod.fst := by
          rw [ha, ← hpid]
          exact List.mem_map_of_mem Prod.fst hp
        exact (List.nodup_cons.mp (by simpa using hnd)).1 this
      have hrest : (rest.filter q).find? (fun p => decide (p.1 = id)) = none := by
        rw [List.find?_eq_none]
        intro p hp
        simpa using hid p (List.mem_of_mem_filter hp)
      subst hfa
      by_cases hq : q (id, f)
      · have hfc : ((id, f) :: rest).filter q = (id, f) :: rest.filter q := by
          simp [List.filter_cons, hq]
        rw [hfc, List.find?_cons_of_pos _ (by simp), if_pos hq]
      · have hfc : ((id, f) :: rest).filter q = rest.filter q := by
          simp [List.filter_cons, hq]
        rw [hfc, hrest, if_neg hq]
    · have hf' : rest.find? (fun p => decide (p.1 = id)) = some (id, f) := by
        rwa [List.find?_cons_of_neg _ (by simp [ha])] at hf
      have hnd' : (rest.map Prod.fst).Nodup := (List.nodup_cons.mp (by simpa using hnd)).2
      by_cases hq : q a
      · have hfc : (a :: rest).filter q = a :: rest.filter q := by
          simp [List.filter_cons, hq]
        rw [hfc, List.find?_cons_of_neg _ (by simp [ha]), ih hnd' hf']
      · have hfc : (a :: rest).filter q = rest.filter q := by
          simp [List.filter_cons, hq]
        rw [hfc, ih hnd' hf']

/-- The registry left by `expireFilters` is the one computed by its walk. -/
theorem expireFilters_state_filters (env : Env) (s : ApiState) (now ttl : Nat) :
    (FilterApi.expireFilters env s now ttl).1.filters
      = (expireStep env now ttl s.filters s.sys).1 := rfl

/-- The trace of `expireFilters` is the one computed by its walk. -/
theorem expireFilters_calls (env : Env) (s : ApiState) (now ttl : Nat) :
    (FilterApi.expireFilters env s now ttl).2
      = (expireStep env now ttl s.filters s.sys).2.2 := rfl

/-- The record found first for a present id is the id paired with its
registered filter. -/
theorem getFilter_find? (s : ApiState) (id : FilterId) (f : Filter)
    (hf : getFilter s id = some f) :
    s.filters.find? (fun p => decide (p.1 = id)) = some (id, f) := by
  unfold getFilter at hf
  cases hq : s.filters.find? (fun p => decide (p.1 = id)) with
  | none => rw [hq] at hf; simp at hf
  | some p0 =>
    rw [hq] at hf
    simp at hf
    have h1 := List.find?_some hq
    obtain ⟨a, b⟩ := p0
    simp_all

/-- Claim C7 (ttl reaper): a reaper tick removes every record whose idle
time reaches the ttl, keeps every other record untouched, and attempts the
cascaded delegate uninstall exactly once per expired log-typed record. -/
theorem expireFilters_ttl_c7 (env : Env) (now ttl : Nat) (s : ApiState) (id : FilterId)
    (f : Filter) (hnd : (s.filters.map Prod.fst).Nodup)
    (hf : getFilter s id = some f) :
    (ttl ≤ now - f.lastPollingTime →
        getFilter (FilterApi.expireFilters env s now ttl).1 id = none)
  ∧ (now - f.lastPollingTime < ttl →
        getFilter (FilterApi.expireFilters env s now ttl).1 id = some f)
  ∧ (FilterApi.expireFilters env s now ttl).2
      = (s.filters.filter fun p => decide (ttl ≤ now - p.2.lastPollingTime)
          && decide (p.2.typ = FilterType.Log)).map
          fun p => UpstreamCall.sysUninstall p.2.del.fid := by
  have hfind := getFilter_find? s id f hf
  have hkey := find?_filter_key id f
    (fun p => decide (now - p.2.lastPollingTime < ttl)) s.filters hnd hfind
  refine ⟨fun h => ?_, fun h => ?_, ?_⟩
  · unfold getFilter
    rw [expireFilters_state_filters, expireStep_keep, hkey]
    simp [Nat.not_lt.mpr h]
  · unfold getFilter
    rw [expireFilters_state_filters, expireStep_keep, hkey]
    simp [h]
  · rw [expireFilters_calls, expireStep_calls]

/-- Witness for C7: with ttl 50 at time 100, the record idle since time 0 is
reaped with exactly one cascade, the record polled at time 90 survives. -/
theorem expireFilters_ttl_c7_witness :
    getFilter (FilterApi.expireFilters envB s7 100 50).1 pfid0 = none
    ∧ getFilter (FilterApi.expireFilters envB s7 100 50).1 pfid1 = some f7b
    ∧ (FilterApi.expireFilters envB s7 100 50).2 = [UpstreamCall.sysUninstall fidDel] := by
  have ha := expireFilters_ttl_c7 envB 100 50 s7 pfid0 f7a (by decide) rfl
  have hb := expireFilters_ttl_c7 envB 100 50 s7 pfid1 f7b (by decide) rfl
  exact ⟨ha.1 (by decide), hb.2.1 (by decide), (ha.2.2).trans (by decide)⟩

end VirtualFilter

namespace MysqlStore

/-- Block rows never come from the transaction loop. -/
theorem block_not_mem_txWrites (rc : List (Nat × Receipt)) (b : Block) (p : Bool) :
    ∀ ts : List Transaction, DbWrite.block b p ∉ txWrites rc ts := by
  intro ts
  induction ts with
  | nil => simp [txWrites]
  | cons t rest ih =>
    unfold txWrites
    cases h : lookupReceipt rc t.hash with
    | none => simpa using ih
    | some r => simp [List.mem_append, List.mem_cons, List.mem_map, ih]

/-- A transaction row is written exactly for the transactions of the list
whose receipt is known, paired with that receipt. -/
theorem tx_mem_txWrites (rc : List (Nat × Receipt)) (t : Transaction) (r : Receipt) :
    ∀ ts : List Transaction,
      (DbWrite.tx t r ∈ txWrites rc ts ↔ t ∈ ts ∧ lookupReceipt rc t.hash = some r) := by
  intro ts
  induction ts with
  | nil => simp [txWrites]
  | cons t2 rest ih =>
    unfold txWrites
    cases h : lookupReceipt rc t2.hash with
    | none =>
      rw [ih]
      constructor
      · rintro ⟨h1, h2⟩
        exact ⟨List.mem_cons_of_mem _ h1, h2⟩
      · rintro ⟨h1, h2⟩
        rcases List.mem_cons.mp h1 with rfl | h1
        · rw [h] at h2
          simp at h2
        · exact ⟨h1, h2⟩
    | some r2 =>
      constructor
      · intro hm
        rcases List.mem_append.mp hm with hm | hm
        · rcases List.mem_cons.mp hm with heq | hm
          · injection heq with e1 e2
            subst e1
            subst e2
            exact ⟨List.mem_cons_self _ _, h⟩
          · rcases List.mem_map.mp hm with ⟨l, _, hl⟩
            simp at hl
        · have h2 := ih.mp hm
          exact ⟨List.mem_cons_of_mem _ h2.1, h2.2⟩
      · rintro ⟨h1, h2⟩
        rcases List.mem_cons.mp h1 with rfl | h1
        · rw [h] at h2
          injection h2 with e
          subst e
          exact List.mem_append.mpr (.inl (List.mem_cons_self _ _))
        · exact List.mem_append.mpr (.inr (ih.mpr ⟨h1, h2⟩))

/-- A log row is written exactly for the logs of the receipts of the written
transactions: a skipped transaction contributes no logs. -/
theorem log_mem_txWrites (rc : List (Nat × Receipt)) (lg : Nat) :
    ∀ ts : List Transaction,
      (DbWrite.log lg ∈ txWrites rc ts ↔
        ∃ t ∈ ts, ∃ r, lookupReceipt rc t.hash = some r ∧ lg ∈ r.logs) := by
  intro ts
  induction ts with
  | nil => simp [txWrites]
  | cons t2 rest ih =>
    unfold txWrites
    cases h : lookupReceipt rc t2.hash with
    | none =>
      rw [ih]
      constructor
      · rintro ⟨t, ht, r, hr, hl⟩
        exact ⟨t, List.mem_cons_of_mem _ ht, r, hr, hl⟩
      · rintro ⟨t, ht, r, hr, hl⟩
        rcases List.mem_cons.mp ht with rfl | ht
        · rw [h] at hr
          simp at hr
        · exact ⟨t, ht, r, hr, hl⟩
    | some r2 =>
      constructor
      · intro hm
        rcases List.mem_append.mp hm with hm | hm
        · rcases List.mem_cons.mp hm with heq | hm
          · simp at heq
          · rcases List.mem_map.mp hm with ⟨l, hl, he⟩
            injection he with e
            subst e
            exact ⟨t2, List.mem_cons_self _ _, r2, h, hl⟩
        · obtain ⟨t, ht, r, hr, hl⟩ := ih.mp hm
          exact ⟨t, List.mem_cons_of_mem _ ht, r, hr, hl⟩
      · rintro ⟨t, ht, r, hr, hl⟩
        rcases List.mem_cons.mp ht with rfl | ht
        · rw [h] at hr
          injection hr with e
          subst e
          exact List.mem_append.mpr
            (.inl (List.mem_cons_of_mem _ (List.mem_map_of_mem _ hl)))
        · exact List.mem_append.mpr (.inr (ih.mpr ⟨t, ht, r, hr, hl⟩))

/-- Transaction rows of the block walk: exactly the receipt-backed
transactions of some block of the list. -/
theorem tx_mem_putBlocks (rc : List (Nat × Receipt)) (t : Transaction) (r : Receipt)
    (pi : Nat) :
    ∀ (bs : List Block) (i : Nat),
      (DbWrite.tx t r ∈ putBlocksWithTx rc pi i bs ↔
        (∃ b ∈ bs, t ∈ b.transactions) ∧ lookupReceipt rc t.hash = some r) := by
  intro bs
  induction bs with
  | nil => intro i; simp [putBlocksWithTx]
  | cons b rest ih =>
    intro i
    unfold putBlocksWithTx
    constructor
    · intro hm
      rcases List.mem_append.mp hm with hm | hm
      · rcases List.mem_cons.mp hm with heq | hm
        · simp at heq
        · have h2 := (tx_mem_txWrites rc t r b.transactions).mp hm
          exact ⟨⟨b, List.mem_cons_self _ _, h2.1⟩, h2.2⟩
      · obtain ⟨⟨b2, hb2, ht⟩, hr⟩ := (ih (i + 1)).mp hm
        exact ⟨⟨b2, List.mem_cons_of_mem _ hb2, ht⟩, hr⟩
    · rintro ⟨⟨b2, hb2, ht⟩, hr⟩
      rcases List.mem_cons.mp hb2 with rfl | hb2
      · exact List.mem_append.mpr
          (.inl (List.mem_cons_of_mem _ ((tx_mem_txWrites rc t r b2.transactions).mpr ⟨ht, hr⟩)))
      · exact List.mem_append.mpr (.inr ((ih (i + 1)).mpr ⟨⟨b2, hb2, ht⟩, hr⟩))

/-- Log rows of the block walk: exactly the receipt logs of the written
transactions of some block of the list. -/
theorem log_mem_putBlocks (rc : List (Nat × Receipt)) (lg : Nat) (pi : Nat) :
    ∀ (bs : List Block) (i : Nat),
      (DbWrite.log lg ∈ putBlocksWithTx rc pi i bs ↔
        ∃ b ∈ bs, ∃ t ∈ b.transactions, ∃ r,
          lookupReceipt rc t.hash = some r ∧ lg ∈ r.logs) := by
  intro bs
  induction bs with
  | nil => intro i; simp [putBlocksWithTx]
  | cons b rest ih =>
    intro i
    unfold putBlocksWithTx
    constructor
    · intro hm
      rcases List.mem_append.mp hm with hm | hm
      · rcases List.mem_cons.mp hm with heq | hm
        · simp at heq
        · obtain ⟨t, ht, r, hr, hl⟩ := (log_mem_txWrites rc lg b.transactions).mp hm
          exact ⟨b, List.mem_cons_self _ _, t, ht, r, hr, hl⟩
      · obtain ⟨b2, hb2, t, ht, r, hr, hl⟩ := (ih (i + 1)).mp hm
        exact ⟨b2, List.mem_cons_of_mem _ hb2, t, ht, r, hr, hl⟩
    · rintro ⟨b2, hb2, t, ht, r, hr, hl⟩
      rcases List.mem_cons.mp hb2 with rfl | hb2
      · exact List.mem_append.mpr
          (.inl (List.mem_cons_of_mem _
            ((log_mem_txWrites rc lg b2.transactions).mpr ⟨t, ht, r, hr, hl⟩)))
      · exact List.mem_append.mpr (.inr ((ih (i + 1)).mpr ⟨b2, hb2, t, ht, r, hr, hl⟩))

/-- Block rows of the block walk: one per position, the pivot flag set
exactly at the pivot index. -/
theorem block_mem_putBlocks (rc : List (Nat × Receipt)) (b : Block) (p : Bool)
    (pi : Nat) :
    ∀ (bs : List Block) (i : Nat),
      (DbWrite.block b p ∈ putBlocksWithTx rc pi i bs ↔
        ∃ j, ∃ hj : j < bs.length, bs.get ⟨j, hj⟩ = b ∧ p = decide (i + j = pi)) := by
  intro bs
  induction bs with
  | nil => intro i; simp [putBlocksWithTx]
  | cons b2 rest ih =>
    intro i
    unfold putBlocksWithTx
    constructor
    · intro hm
      rcases List.mem_append.mp hm with hm | hm
      · rcases List.mem_cons.mp hm with heq | hm
        · injection heq with e1 e2
          refine ⟨0, by simp, by simp [e1], ?_⟩
          rw [e2]
          exact decide_eq_decide.mpr (by omega)
        · exact absurd hm (block_not_mem_txWrites rc b p _)
      · obtain ⟨j, hj, hb, hp⟩ := (ih (i + 1)).mp hm
        refine ⟨j + 1, Nat.succ_lt_succ hj, by simpa using hb, ?_⟩
        rw [hp]
        exact decide_eq_decide.mpr (by omega)
    · rintro ⟨j, hj, hb, hp⟩
      cases j with
      | zero =>
        have hb2 : b2 = b := by simpa using hb
        have hp2 : p = decide (i = pi) := by
          rw [hp]
          exact decide_eq_decide.mpr (by omega)
        subst hb2
        rw [hp2]
        exact List.mem_append.mpr (.inl (List.mem_cons_self _ _))
      | succ j2 =>
        have hj2 : j2 < rest.length := Nat.lt_of_succ_lt_succ hj
        have hb2 : rest.get ⟨j2, hj2⟩ = b := by simpa using hb
        have hp2 : p = decide (i + 1 + j2 = pi) := by
          rw [hp]
          exact decide_eq_decide.mpr (by omega)
        exact List.mem_append.mpr (.inr ((ih (i + 1)).mpr ⟨j2, hj2, hb2, hp2⟩))

/-- Claim C9: for every epoch batch persisted by `PutEpochData` or
`PutEpochDataSlice`, a transaction of a block is written exactly when the
batch holds a receipt for it, a log row is written exactly when it belongs
to the receipt of such a written transaction (skipped transactions
contribute none), and every block of the batch is written with the pivot
flag true exactly at the last position; a slice writes exactly its batches'
rows. -/
theorem putEpochData_writes_c9 (data : EpochData) :
    (∀ t r, DbWrite.tx t r ∈ PutEpochData data ↔
      (∃ b ∈ data.blocks, t ∈ b.transactions)
        ∧ lookupReceipt data.receipts t.hash = some r)
  ∧ (∀ lg, DbWrite.log lg ∈ PutEpochData data ↔
      ∃ b ∈ data.blocks, ∃ t ∈ b.transactions, ∃ r,
        lookupReceipt data.receipts t.hash = some r ∧ lg ∈ r.logs)
  ∧ (∀ b p, DbWrite.block b p ∈ PutEpochData data ↔
      ∃ j, ∃ hj : j < data.blocks.length,
        data.blocks.get ⟨j, hj⟩ = b ∧ p = decide (j = data.blocks.length - 1))
  ∧ (∀ w ds, w ∈ PutEpochDataSlice ds ↔ ∃ d ∈ ds, w ∈ putOneWithTx d)
  ∧ PutEpochData data = putOneWithTx data := by
  have hpe : PutEpochData data = putOneWithTx data := by
    simp [PutEpochData, PutEpochDataSlice]
  refine ⟨?_, ?_, ?_, ?_, hpe⟩
  · intro t r
    rw [hpe]
    exact tx_mem_putBlocks data.receipts t r _ data.blocks 0
  · intro lg
    rw [hpe]
    exact log_mem_putBlocks data.receipts lg _ data.blocks 0
  · intro b p
    rw [hpe]
    rw [show putOneWithTx data
        = putBlocksWithTx data.receipts (data.blocks.length - 1) 0 data.blocks from rfl]
    rw [block_mem_putBlocks data.receipts b p _ data.blocks 0]
    simp [Nat.zero_add]
  · intro w ds
    simp [PutEpochDataSlice]

end MysqlStore
